import Mathlib

/-!
Verification development for the json-storage repository (src/JSONStorage.ts).

The storage engine keeps one JSON file per document inside a collection
directory, plus transient lock-marker directories, and offers
create / read / update / delete / all / filter / getStats together with an
optional bounded-size eviction policy (createWithMaxAmountAllowed).

Shallow embedding conventions:
- JavaScript values stored in documents are modelled by JValue: undefined,
  null, primitives (integer numbers, strings, booleans) and flat arrays of
  primitives.  JS numbers are modelled as integers; string-to-number
  coercion inside relational comparisons is not modelled (such operands
  compare like NaN, i.e. every comparison is false), which no claim
  exercises.
- The filesystem state of one collection is a Store: the list of .json
  document files (filename stem, parsed content, creation and modification
  timestamps), the set of existing lock-marker stems, and a counter feeding
  the UUID generator (crypto.randomUUID is modelled as an injective
  stream uuidGen applied at successive counter values).
- Async operations are modelled as state-passing functions; the
  per-collection AsyncTasksQueue (external package) runs queued tasks
  strictly one at a time per its contract, so a queued task is one atomic
  state transition.  For the lock race of claim C6 a finer interleaving
  model is given further below.
- fs errors that depend on the environment (permissions, disk space) are
  modelled by a Boolean argument wOk saying whether the underlying write
  succeeds.
-/

deriving instance DecidableEq for Except

namespace JSONStorage

/-- Primitive JS values that the TS Filter type admits as operands
(string, number, boolean). -/
inductive Prim where
  | num (n : Int)
  | str (s : String)
  | bool (b : Bool)
deriving DecidableEq, Repr

/-- Field values stored in documents: undefined, null, primitives and flat
arrays of primitives. -/
inductive JValue where
  | undef
  | null
  | prim (p : Prim)
  | arr (elems : List Prim)
deriving DecidableEq, Repr

/-- JS strict equality (===) between a typed primitive operand and a field
value: equal only when both are primitives of the same type and value
(arrays and objects compare by reference in JS, hence never equal to a
fresh literal; undefined and null are distinct from every primitive). -/
def primEqVal (p : Prim) (v : JValue) : Bool :=
  match v with
  | .prim q => p == q
  | _ => false

/-- JS ToNumber on the modelled values, where it is exact: numbers are
themselves, booleans are 0 or 1, null is 0.  Strings and arrays are not
modelled (returned as none, which the comparisons below treat like NaN). -/
def toNumber (v : JValue) : Option Int :=
  match v with
  | .prim (.num n) => some n
  | .prim (.bool b) => some (if b then 1 else 0)
  | .null => some 0
  | _ => none

/-- JS `value > x` for a number operand x. -/
def jsGtNum (v : JValue) (x : Int) : Bool :=
  match toNumber v with
  | some n => decide (x < n)
  | none => false

/-- JS `value >= x` for a number operand x. -/
def jsGeNum (v : JValue) (x : Int) : Bool :=
  match toNumber v with
  | some n => decide (x ≤ n)
  | none => false

/-- JS `value < x` for a number operand x. -/
def jsLtNum (v : JValue) (x : Int) : Bool :=
  match toNumber v with
  | some n => decide (n < x)
  | none => false

/-- JS `value <= x` for a number operand x. -/
def jsLeNum (v : JValue) (x : Int) : Bool :=
  match toNumber v with
  | some n => decide (n ≤ x)
  | none => false

/-- JS truthiness of a field value: false, 0, empty string, null and
undefined are falsy; everything else (including empty arrays) is truthy. -/
def jsTruthy : JValue → Bool
  | .undef => false
  | .null => false
  | .prim (.bool b) => b
  | .prim (.num n) => n != 0
  | .prim (.str s) => s != ""
  | .arr _ => true

/-- JS ToString of a primitive. -/
def primToString : Prim → String
  | .str s => s
  | .num n => toString n
  | .bool true => "true"
  | .bool false => "false"

/-- JS ToString of a field value (as used by template literals when an id
is interpolated into a file path). -/
def jsToString : JValue → String
  | .undef => "undefined"
  | .null => "null"
  | .prim p => primToString p
  | .arr xs => String.intercalate "," (xs.map primToString)

/-- Property read obj[k] on a JS object modelled as an association list:
the value at the first occurrence of the key, or undefined when absent. -/
def getKeyD : List (String × JValue) → String → JValue
  | [], _ => .undef
  | kv :: rest, k => if kv.1 == k then kv.2 else getKeyD rest k

/-- Whether a JS object carries a property named k. -/
def hasKey (m : List (String × JValue)) (k : String) : Bool :=
  m.any (fun kv => kv.1 == k)

/-- Property write on a JS object: replace the value in place when the key
exists, append otherwise (JS objects keep the original insertion order of
an updated property). -/
def setKey : List (String × JValue) → String → JValue → List (String × JValue)
  | [], k, v => [(k, v)]
  | kv :: rest, k, v => if kv.1 == k then (k, v) :: rest else kv :: setKey rest k v

/-- JS object spread: apply every entry of the second object over the
first, in order. -/
def applyEntries (base : List (String × JValue)) (entries : List (String × JValue)) :
    List (String × JValue) :=
  entries.foldl (fun acc kv => setKey acc kv.1 kv.2) base

/-- General JS relational comparison a > b between two field values, as
the filter sort comparator uses it: numeric when both sides convert
exactly, lexicographic when both are strings, false otherwise (the
unmodelled string/array ToNumber coercions behave like NaN). -/
def jsGtVal (a b : JValue) : Bool :=
  match a, b with
  | .prim (.str x), .prim (.str y) => decide (y < x)
  | _, _ =>
    match toNumber a, toNumber b with
    | some x, some y => decide (y < x)
    | _, _ => false

/-- General JS relational comparison a < b; for the modelled values this
coincides with b > a. -/
def jsLtVal (a b : JValue) : Bool := jsGtVal b a

/-
The Filter type of JSONStorage.types.ts.  It is mutually defined with its
own option and list types so that the recursive evaluator below is
structurally recursive (and hence computable by the kernel).
-/

mutual
/-- The TS Filter record: an operator object with twelve optional keys.
Field order matches the priority order of evaluateFilter. -/
inductive Filter where
  | mk (gt gte lt lte : Option Int) (regex : Option String)
       (isin nin : Option (List Prim)) (neF eqF : Option Prim)
       (orF andF : OptFilters) (notF : OptFilter)
/-- Optional list of sub-filters (the $or / $and operand). -/
inductive OptFilters where
  | none
  | some (fs : Filters)
/-- List of sub-filters. -/
inductive Filters where
  | nil
  | cons (f : Filter) (fs : Filters)
/-- Optional sub-filter (the $not operand). -/
inductive OptFilter where
  | none
  | some (f : Filter)
end

/-- The $in / $nin stage of evaluateFilter (lines 478 to 484 of
JSONStorage.ts): when the field value is an array, $in asks whether some
operator item is a member of the array and $nin the negation; otherwise
$in asks whether the field value is a member of the operator list and
$nin the negation.  Returns none when neither key is present, matching
fall-through to the later keys. -/
def inNinStage (v : JValue) (isin nin : Option (List Prim)) : Option Bool :=
  match v, isin, nin with
  | .arr elems, some items, _ => some (items.any (fun it => elems.contains it))
  | .arr elems, none, some items => some (!(items.any (fun it => elems.contains it)))
  | .arr _, none, none => none
  | v, some items, _ => some (items.any (fun it => primEqVal it v))
  | v, none, some items => some (!(items.any (fun it => primEqVal it v)))
  | _, none, none => none

mutual
/-- The recursive matcher evaluateFilter of JSONStorage.ts (lines 471 to
499), translated clause by clause: a fixed first-match-wins chain over
$gt, $gte, $lt, $lte, $regex, then $in / $nin (array or scalar field
value), then $ne, $eq, then $or, $and, $not, and true when no key is
present.  The JS regular-expression test is abstracted as the parameter
rt (pattern, field value to test). -/
def evaluateFilter (rt : String → JValue → Bool) (v : JValue) : Filter → Bool
  | .mk gt gte lt lte rgx isin nin neF eqF orF andF notF =>
    match gt with
    | some x => jsGtNum v x
    | none =>
    match gte with
    | some x => jsGeNum v x
    | none =>
    match lt with
    | some x => jsLtNum v x
    | none =>
    match lte with
    | some x => jsLeNum v x
    | none =>
    match rgx with
    | some pat => rt pat v
    | none =>
    match inNinStage v isin nin with
    | some b => b
    | none =>
    match neF with
    | some p => !(primEqVal p v)
    | none =>
    match eqF with
    | some p => primEqVal p v
    | none =>
    match orF with
    | .some fs => evaluateSome rt v fs
    | .none =>
    match andF with
    | .some fs => evaluateEvery rt v fs
    | .none =>
    match notF with
    | .some f => !(evaluateFilter rt v f)
    | .none => true
/-- The $or combinator: Array.prototype.some over the sub-filters. -/
def evaluateSome (rt : String → JValue → Bool) (v : JValue) : Filters → Bool
  | .nil => false
  | .cons f fs => evaluateFilter rt v f || evaluateSome rt v fs
/-- The $and combinator: Array.prototype.every over the sub-filters. -/
def evaluateEvery (rt : String → JValue → Bool) (v : JValue) : Filters → Bool
  | .nil => true
  | .cons f fs => evaluateFilter rt v f && evaluateEvery rt v fs
end

/-- The operator object with no recognized key. -/
def emptyFilter : Filter :=
  .mk none none none none none none none none none .none .none .none

/-- Restriction of an operator object to its single highest-priority
present key, in the order of the evaluateFilter chain; the empty object
when no key is present. -/
def keepFirstKey : Filter → Filter
  | .mk gt gte lt lte rgx isin nin neF eqF orF andF notF =>
    match gt with
    | some x => .mk (some x) none none none none none none none none .none .none .none
    | none =>
    match gte with
    | some x => .mk none (some x) none none none none none none none .none .none .none
    | none =>
    match lt with
    | some x => .mk none none (some x) none none none none none none .none .none .none
    | none =>
    match lte with
    | some x => .mk none none none (some x) none none none none none .none .none .none
    | none =>
    match rgx with
    | some pat => .mk none none none none (some pat) none none none none .none .none .none
    | none =>
    match isin with
    | some items => .mk none none none none none (some items) none none none .none .none .none
    | none =>
    match nin with
    | some items => .mk none none none none none none (some items) none none .none .none .none
    | none =>
    match neF with
    | some p => .mk none none none none none none none (some p) none .none .none .none
    | none =>
    match eqF with
    | some p => .mk none none none none none none none none (some p) .none .none .none
    | none =>
    match orF with
    | .some fs => .mk none none none none none none none none none (.some fs) .none .none
    | .none =>
    match andF with
    | .some fs => .mk none none none none none none none none none .none (.some fs) .none
    | .none =>
    match notF with
    | .some f => .mk none none none none none none none none none .none .none (.some f)
    | .none => emptyFilter

/-
The filesystem model of one collection directory and the CRUD engine.
-/

/-- One .json document file of a collection: filename stem, parsed JSON
content (the raw field map, no envelope), and the creation (birthtime) and
modification (mtime) timestamps that fs.stat reports. -/
structure DocFile where
  name : String
  content : List (String × JValue)
  birthtime : Nat
  mtime : Nat
deriving DecidableEq, Repr

/-- The visible filesystem state of one collection: its document files,
the stems of the existing .lock marker directories, and the counter that
feeds the modelled crypto.randomUUID stream. -/
structure Store where
  docs : List DocFile
  locks : List String
  ctr : Nat
deriving DecidableEq, Repr

/-- The error kinds the engine can surface, per the taxonomy that the
operations raise: mkdir of an existing lock (AlreadyLocked), exclusive
write on an existing file (AlreadyExists), access or stat on a missing
file (NotFound), an identity field supplied to update (InvalidArgument),
and an environment-level write failure (FilesystemFailure, injected via
the wOk arguments). -/
inductive StorageError where
  | alreadyLocked
  | alreadyExists
  | notFound
  | invalidArgument
  | writeFailed
deriving DecidableEq, Repr

/-- The modelled crypto.randomUUID stream: the n-th fresh id. -/
def uuidGen (n : Nat) : String := "uuid-" ++ Nat.repr n

/-- The path `<collectionDir>/<id>.json` of a document. -/
def docPath (dir id : String) : String := dir ++ "/" ++ id ++ ".json"

/-- Whether a document file with the given stem exists. -/
def hasDoc (s : Store) (id : String) : Bool := s.docs.any (fun d => d.name == id)

/-- Whether a lock marker with the given stem exists. -/
def hasLock (s : Store) (id : String) : Bool := s.locks.contains id

/-- Effect of fs.mkdir of the lock marker (only called when absent). -/
def acquireLock (id : String) (s : Store) : Store := { s with locks := id :: s.locks }

/-- Effect of fs.rm of the lock marker. -/
def releaseLock (id : String) (s : Store) : Store := { s with locks := s.locks.erase id }

/-- Effect of fs.unlink of a document file. -/
def removeDoc (id : String) (s : Store) : Store :=
  { s with docs := s.docs.filter (fun d => d.name != id) }

/-- Effect of overwriting a document file (flag w): content replaced
wholesale, mtime refreshed, birthtime kept. -/
def replaceDoc (id : String) (content : List (String × JValue)) (now : Nat) (s : Store) :
    Store :=
  { s with docs := s.docs.map (fun d =>
      if d.name == id then { d with content := content, mtime := now } else d) }

/-- The private create of JSONStorage.ts (lines 285 to 308): resolve the
id from a truthy _id in the data (string-coerced by the path template)
else a fresh UUID, mkdir the lock marker (propagating AlreadyLocked when
it exists), write the encoded data exclusively (flag wx, so an existing
file raises AlreadyExists), and remove the marker on both the success and
the failure path.  Note the content is written exactly as supplied: a
generated id is not added to the stored field map. -/
def create (dir : String) (now : Nat) (wOk : Bool) (data : List (String × JValue))
    (s : Store) : Except StorageError (String × String) × Store :=
  let idv := getKeyD data "_id"
  let id := if jsTruthy idv then jsToString idv else uuidGen s.ctr
  let s1 := if jsTruthy idv then s else { s with ctr := s.ctr + 1 }
  if hasLock s1 id then (.error .alreadyLocked, s1)
  else
    let s2 := acquireLock id s1
    if hasDoc s2 id then (.error .alreadyExists, releaseLock id s2)
    else if !wOk then (.error .writeFailed, releaseLock id s2)
    else (.ok (id, docPath dir id),
          releaseLock id { s2 with docs := s2.docs ++ [⟨id, data, now, now⟩] })

/-- The update of JSONStorage.ts (lines 328 to 353): reject a truthy _id
in the data before any filesystem access, mkdir the lock marker, check the
file exists (else NotFound), overwrite it wholesale, and remove the marker
on both the success and the failure path. -/
def update (dir : String) (now : Nat) (wOk : Bool) (fileId : String)
    (data : List (String × JValue)) (s : Store) :
    Except StorageError (String × String) × Store :=
  if jsTruthy (getKeyD data "_id") then (.error .invalidArgument, s)
  else if hasLock s fileId then (.error .alreadyLocked, s)
  else
    let s2 := acquireLock fileId s
    if !(hasDoc s2 fileId) then (.error .notFound, releaseLock fileId s2)
    else if !wOk then (.error .writeFailed, releaseLock fileId s2)
    else (.ok (fileId, docPath dir fileId), releaseLock fileId (replaceDoc fileId data now s2))

/-- The delete of JSONStorage.ts (lines 397 to 411): mkdir the lock
marker, check the file exists (else NotFound), unlink it, and remove the
marker on both the success and the failure path. -/
def delete (fileId : String) (s : Store) : Except StorageError Unit × Store :=
  if hasLock s fileId then (.error .alreadyLocked, s)
  else
    let s2 := acquireLock fileId s
    if !(hasDoc s2 fileId) then (.error .notFound, releaseLock fileId s2)
    else (.ok (), releaseLock fileId (removeDoc fileId s2))

/-- A document as returned to callers: the merged field map plus the stat
metadata (carried separately from the field map in this model). -/
structure OutDoc where
  fields : List (String × JValue)
  birthtime : Nat
  mtime : Nat
deriving DecidableEq, Repr

/-- The read of JSONStorage.ts (lines 367 to 380): lock-free; stat and
parse the file, then return the spread of the parsed content with _id
overridden by the requested filename stem. -/
def read (fileId : String) (s : Store) : Except StorageError OutDoc :=
  match s.docs.find? (fun d => d.name == fileId) with
  | none => .error .notFound
  | some d => .ok ⟨setKey d.content "_id" (.prim (.str fileId)), d.birthtime, d.mtime⟩

/-- The all of JSONStorage.ts (lines 424 to 442): every .json regular
file, each parsed and returned as the spread of its content with _id
overridden by its filename stem. -/
def all (s : Store) : List OutDoc :=
  s.docs.map (fun d => ⟨setKey d.content "_id" (.prim (.str d.name)), d.birthtime, d.mtime⟩)

/-
The filter query pipeline and getStats.
-/

/-- A where condition for one field: either a plain scalar (compared with
strict equality) or an operator object (typeof value is object and not
null dispatches to evaluateFilter). -/
inductive Cond where
  | scalar (p : Prim)
  | op (f : Filter)

/-- Sort direction. -/
inductive SortOrder where
  | asc
  | desc
deriving DecidableEq, Repr

/-- The options object of filter: where, sort, limit, offset (each
possibly absent). -/
structure Query where
  whereQ : Option (List (String × Cond))
  sortQ : Option (String × SortOrder)
  limitQ : Option Nat
  offsetQ : Option Nat

/-- One where entry checked against a field value. -/
def matchCond (rt : String → JValue → Bool) (v : JValue) : Cond → Bool
  | .scalar p => primEqVal p v
  | .op f => evaluateFilter rt v f

/-- The where step: Object.entries(where).every over the merged document
object (a missing field reads as undefined). -/
def matchesWhere (rt : String → JValue → Bool) (w : List (String × Cond))
    (fields : List (String × JValue)) : Bool :=
  w.all (fun kc => matchCond rt (getKeyD fields kc.1) kc.2)

/-- Document object built by filter (line 511 of JSONStorage.ts): the _id
from the filename stem is spread FIRST and the parsed content after it, so
a content-carried _id overrides the stem (unlike read and all). -/
def filterDocOut (d : DocFile) : OutDoc :=
  ⟨applyEntries [("_id", .prim (.str d.name))] d.content, d.birthtime, d.mtime⟩

/-- The sort step of filter: Array.prototype.sort with the comparator
returning 1 when the first value compares after the second and -1
otherwise; modelled as a stable sort placing a before b when the
comparator is nonpositive. -/
def sortDocs (field : String) (ord : SortOrder) (docs : List OutDoc) : List OutDoc :=
  match ord with
  | .asc => List.insertionSort
      (fun a b => jsGtVal (getKeyD a.fields field) (getKeyD b.fields field) = false) docs
  | .desc => List.insertionSort
      (fun a b => jsLtVal (getKeyD a.fields field) (getKeyD b.fields field) = false) docs

/-- The filter of JSONStorage.ts (lines 465 to 551): list the documents,
build each merged object, apply the where conditions, sort, then slice.
The offset and limit guards are JS truthiness tests, so an offset or a
limit equal to 0 skips its slice entirely. -/
def filter (rt : String → JValue → Bool) (s : Store) (q : Query) : List OutDoc :=
  let docs0 := s.docs.map filterDocOut
  let docs1 := match q.whereQ with
    | some w => docs0.filter (fun o => matchesWhere rt w o.fields)
    | none => docs0
  let docs2 := match q.sortQ with
    | some fo => sortDocs fo.1 fo.2 docs1
    | none => docs1
  let docs3 := match q.offsetQ with
    | some o => if o == 0 then docs2 else docs2.drop o
    | none => docs2
  match q.limitQ with
  | some l => if l == 0 then docs3 else docs3.take l
  | none => docs3

/-- The light metadata record getStats returns per document (the locale
formatting of the two timestamps is abstracted to the raw stat values). -/
structure FileMetadata where
  id : String
  createdAt : Nat
  updatedAt : Nat
deriving DecidableEq, Repr

/-- The record getStats returns. -/
structure DirectoryStats where
  amount : Nat
  createdAsc : List FileMetadata
  updatedAsc : List FileMetadata
deriving DecidableEq, Repr

/-- Id derivation used by getStats and by the eviction step (lines 142 and
242 of JSONStorage.ts): the content-carried _id when truthy, the filename
stem otherwise, string-coerced. -/
def contentIdStr (d : DocFile) : String :=
  let v := getKeyD d.content "_id"
  if jsTruthy v then jsToString v else d.name

/-- The getStats of JSONStorage.ts (lines 129 to 179): the document count
and the metadata records sorted ascending by creation time and by
modification time (the comparator returns the timestamp difference, so the
sort is stable). -/
def getStats (s : Store) : DirectoryStats :=
  let fileStats := s.docs.map (fun d => (⟨contentIdStr d, d.birthtime, d.mtime⟩ : FileMetadata))
  ⟨s.docs.length,
   List.insertionSort (fun a b => a.createdAt ≤ b.createdAt) fileStats,
   List.insertionSort (fun a b => a.updatedAt ≤ b.updatedAt) fileStats⟩

/-- The createWithMaxAmountAllowed of JSONStorage.ts (lines 211 to 267),
run as one queued task.  With maxFileAmount = 0 it only synthesizes a
result, evaluating `data._id || crypto.randomUUID()` once for the id and
once more for the path.  Otherwise it counts the .json files; when the
count reaches the cap it sorts them by birthtime ascending and deletes
the first count - max + 1 of them through the normal delete, each victim
addressed by its content-derived id (contentIdStr) and each failure
swallowed; finally it runs the normal create. -/
def createWithMaxAmountAllowed (dir : String) (now : Nat) (wOk : Bool)
    (data : List (String × JValue)) (maxFileAmount : Nat) (s : Store) :
    Except StorageError (String × String) × Store :=
  if maxFileAmount == 0 then
    let idv := getKeyD data "_id"
    if jsTruthy idv then
      (.ok (jsToString idv, docPath dir (jsToString idv)), s)
    else
      (.ok (uuidGen s.ctr, docPath dir (uuidGen (s.ctr + 1))), { s with ctr := s.ctr + 2 })
  else
    let s1 :=
      if maxFileAmount ≤ s.docs.length then
        let createdAsc := List.insertionSort (fun a b => a.birthtime ≤ b.birthtime) s.docs
        let victims := (createdAsc.take (s.docs.length - maxFileAmount + 1)).map contentIdStr
        victims.foldl (fun st vid => (delete vid st).2) s
      else s
    create dir now wOk data s1

/-
Interleaving model of N concurrent update calls against one existing id.

Each in-flight update suspends at its filesystem awaits.  The outcome of
every competing call depends only on the lock marker, so a call is
abstracted to two atomic steps: the mkdir of the lock marker (which either
acquires it or fails the call with AlreadyLocked, the fail-fast contract),
and the remainder (access check, overwrite, marker removal) which for an
existing file always succeeds and releases the marker.  A schedule is the
order in which the pending steps of the calls hit the filesystem.
-/

/-- Progress of one in-flight update call. -/
inductive CallPhase where
  | pending
  | acquired
  | succeeded
  | failedLocked
deriving DecidableEq, Repr

/-- Shared state of the race: whether the lock marker for the contested id
exists, and the phase of every call. -/
structure RaceState where
  locked : Bool
  calls : List CallPhase
deriving DecidableEq, Repr

/-- One filesystem step of call i: a pending call attempts the mkdir of
the marker (failing fast with AlreadyLocked when it exists), a call that
holds the marker performs its write and removes the marker. -/
def raceStep (st : RaceState) (i : Nat) : RaceState :=
  match st.calls.get? i with
  | some .pending =>
    if st.locked then { st with calls := st.calls.set i .failedLocked }
    else { locked := true, calls := st.calls.set i .acquired }
  | some .acquired => { locked := false, calls := st.calls.set i .succeeded }
  | _ => st

/-- Run a schedule of steps. -/
def raceRun (st : RaceState) (sched : List Nat) : RaceState :=
  sched.foldl raceStep st

/-- Initial state of N concurrent updates: no marker, every call pending. -/
def raceInit (n : Nat) : RaceState := ⟨false, List.replicate n .pending⟩

/-
Remaining definitions used by the theorems below.
-/

/-- A fresh collection directory: no documents, no markers. -/
def emptyStore : Store := ⟨[], [], 0⟩

/-- A sequence of public create calls against a capped collection, each
one a queued task with its own clock value, write outcome and data. -/
def runCreates (dir : String) (maxFileAmount : Nat)
    (calls : List (Nat × Bool × List (String × JValue))) (s : Store) : Store :=
  calls.foldl
    (fun st c => (createWithMaxAmountAllowed dir c.1 c.2.1 c.2.2 maxFileAmount st).2) s

/-- States a collection reaches through its own API: no leftover markers,
distinct filenames, and every content-derived id resolving back to the
filename stem (a stored _id is written by create itself, which names the
file after it). -/
def WellFormed (s : Store) : Prop :=
  s.locks = [] ∧ ((s.docs.map DocFile.name).Nodup ∧ ∀ d ∈ s.docs, contentIdStr d = d.name)

/-- Store whose single document carries a content _id differing from its
filename stem. -/
def contentIdStore : Store :=
  ⟨[⟨"a", [("_id", .prim (.str "b")), ("x", .prim (.num 1))], 0, 0⟩], [], 0⟩

/-- Store with one document named x. -/
def oneDocStore : Store := ⟨[⟨"x", [("a", .prim (.num 1))], 0, 0⟩], [], 0⟩

/-- Store with one empty document named a. -/
def oneEmptyDocStore : Store := ⟨[⟨"a", [], 0, 0⟩], [], 0⟩

/-- Regex tester instance used at concrete inputs (no claim depends on the
regex semantics). -/
def noRegex : String → JValue → Bool := fun _ _ => false

/-
Helper lemmas about JS objects modelled as association lists.
-/

/-- A property write is read back. -/
theorem getKeyD_setKey_self (m : List (String × JValue)) (k : String) (v : JValue) :
    getKeyD (setKey m k v) k = v := by
  induction m with
  | nil => simp [setKey, getKeyD]
  | cons kv rest ih =>
    by_cases h : kv.1 = k
    · simp [setKey, h, getKeyD]
    · simp [setKey, h, getKeyD, ih]

/-- A property write leaves other properties unchanged. -/
theorem getKeyD_setKey_other (m : List (String × JValue)) (k k2 : String) (v : JValue)
    (h : k ≠ k2) :
    getKeyD (setKey m k v) k2 = getKeyD m k2 := by
  induction m with
  | nil => simp [setKey, getKeyD, h]
  | cons kv rest ih =>
    by_cases hk : kv.1 = k
    · simp [setKey, getKeyD, hk, h]
    · simp [setKey, getKeyD, hk, ih]

/-- Writing an absent property appends it. -/
theorem setKey_eq_append (m : List (String × JValue)) (k : String) (v : JValue)
    (h : hasKey m k = false) :
    setKey m k v = m ++ [(k, v)] := by
  induction m with
  | nil => simp [setKey]
  | cons kv rest ih =>
    simp only [hasKey, List.any_cons, Bool.or_eq_false_iff] at h
    simp [setKey, h.1, ih (by simpa [hasKey] using h.2)]

/-- An absent property reads as undefined. -/
theorem getKeyD_eq_undef (m : List (String × JValue)) (k : String)
    (h : hasKey m k = false) :
    getKeyD m k = .undef := by
  induction m with
  | nil => rfl
  | cons kv rest ih =>
    simp only [hasKey, List.any_cons, Bool.or_eq_false_iff] at h
    simp [getKeyD, h.1, ih (by simpa [hasKey] using h.2)]

/-- Spreading an object with pairwise distinct keys over a base object:
each key present in the spread object wins, the others keep the base
value. -/
theorem getKeyD_applyEntries (entries : List (String × JValue))
    (base : List (String × JValue)) (k : String)
    (h : (entries.map Prod.fst).Nodup) :
    getKeyD (applyEntries base entries) k =
      if hasKey entries k then getKeyD entries k else getKeyD base k := by
  induction entries generalizing base with
  | nil => simp [applyEntries, hasKey, getKeyD]
  | cons kv rest ih =>
    obtain ⟨k1, v1⟩ := kv
    simp only [List.map_cons, List.nodup_cons] at h
    have step : applyEntries base ((k1, v1) :: rest) = applyEntries (setKey base k1 v1) rest := rfl
    rw [step, ih _ h.2]
    by_cases hk : k1 = k
    · subst hk
      have habs : hasKey rest k1 = false := by
        simp only [hasKey, List.any_eq_false, beq_iff_eq]
        intro x hx hpx
        exact h.1 (List.mem_map.mpr ⟨x, hx, hpx⟩)
      rw [habs]
      simp [getKeyD_setKey_self, hasKey, List.any_cons, getKeyD]
    · have hcons : hasKey ((k1, v1) :: rest) k = hasKey rest k := by
        simp [hasKey, List.any_cons, hk]
      rw [hcons]
      by_cases hr : hasKey rest k
      · rw [hr]
        simp [getKeyD, hk]
      · have hr2 : hasKey rest k = false := by simpa using hr
        rw [hr2]
        simp [getKeyD, hk, getKeyD_setKey_other _ _ _ _ hk]

/-- Reduction of the in and nin stage when neither key is present. -/
theorem inNinStage_none_none (v : JValue) : inNinStage v none none = none := by
  cases v <;> rfl

/-
Claim C1: the operator-object matcher is a fixed first-match-wins
priority chain.
-/

/-- C1: for every field value and every operator object, the matcher
result equals the result on the restriction of the object to its single
highest-priority present key, in the order gt, gte, lt, lte, regex,
in, nin, ne, eq, or, and, not — every lower-priority key is ignored —
and an operator object with none of the recognized keys matches every
value. -/
theorem evaluateFilter_first_match_wins (rt : String → JValue → Bool) (v : JValue)
    (f : Filter) :
    evaluateFilter rt v f = evaluateFilter rt v (keepFirstKey f) ∧
    evaluateFilter rt v emptyFilter = true := by
  constructor
  · obtain ⟨gt, gte, lt, lte, rgx, isin, nin, neF, eqF, orF, andF, notF⟩ := f
    cases gt with
    | some x => rfl
    | none =>
    cases gte with
    | some x => rfl
    | none =>
    cases lt with
    | some x => rfl
    | none =>
    cases lte with
    | some x => rfl
    | none =>
    cases rgx with
    | some pat => rfl
    | none =>
    cases isin with
    | some items => cases v <;> rfl
    | none =>
    cases nin with
    | some items => cases v <;> rfl
    | none =>
    cases neF with
    | some p => cases v <;> rfl
    | none =>
    cases eqF with
    | some p => cases v <;> rfl
    | none =>
    cases orF with
    | some fs => cases v <;> rfl
    | none =>
    cases andF with
    | some fs => cases v <;> rfl
    | none =>
    cases notF with
    | some g => cases v <;> rfl
    | none => cases v <;> rfl
  · cases v <;> rfl

/-
Claim C4: every mutating call restores the lock state it found.
-/

/-- The create call leaves the set of lock markers exactly as it found
it, on the success path and on every failure path. -/
theorem create_locks (dir : String) (now : Nat) (wOk : Bool)
    (data : List (String × JValue)) (s : Store) :
    ((create dir now wOk data s).2).locks = s.locks := by
  unfold create
  split_ifs <;> simp [releaseLock, acquireLock] <;> split_ifs <;>
    simp [releaseLock, acquireLock]

/-- The update call leaves the set of lock markers exactly as it found
it, on the success path and on every failure path. -/
theorem update_locks (dir : String) (now : Nat) (wOk : Bool) (fileId : String)
    (data : List (String × JValue)) (s : Store) :
    ((update dir now wOk fileId data s).2).locks = s.locks := by
  unfold update
  by_cases h0 : jsTruthy (getKeyD data "_id")
  · simp [h0]
  · by_cases h1 : hasLock s fileId
    · simp [h0, h1]
    · have hconv : ∀ L : List String,
          hasDoc { docs := s.docs, locks := L, ctr := s.ctr } fileId = hasDoc s fileId :=
        fun _ => rfl
      by_cases h2 : hasDoc s fileId
      · by_cases h3 : wOk <;>
          simp [h0, h1, h2, h3, hconv, releaseLock, acquireLock, replaceDoc]
      · simp [h0, h1, h2, hconv, releaseLock, acquireLock]

/-- The delete call leaves the set of lock markers exactly as it found
it, on the success path and on every failure path. -/
theorem delete_locks (fileId : String) (s : Store) :
    ((delete fileId s).2).locks = s.locks := by
  unfold delete
  by_cases h1 : hasLock s fileId
  · simp [h1]
  · have hconv : ∀ L : List String,
        hasDoc { docs := s.docs, locks := L, ctr := s.ctr } fileId = hasDoc s fileId :=
      fun _ => rfl
    by_cases h2 : hasDoc s fileId <;>
      simp [h1, h2, hconv, releaseLock, acquireLock, removeDoc]

/-- C4: a settled create, update or delete passes on exactly the lock
markers it found, on the success path and on every failure path (write
failure, AlreadyExists, NotFound, InvalidArgument, AlreadyLocked); in
particular a call that acquired the marker for its id always removes it
before returning, so no marker for that id remains afterwards unless a
different in-flight call owns it. -/
theorem mutating_calls_preserve_locks (dir : String) (now : Nat) (wOk : Bool)
    (fileId : String) (data : List (String × JValue)) (s : Store) :
    ((create dir now wOk data s).2).locks = s.locks ∧
    ((update dir now wOk fileId data s).2).locks = s.locks ∧
    ((delete fileId s).2).locks = s.locks :=
  ⟨create_locks dir now wOk data s, update_locks dir now wOk fileId data s,
   delete_locks fileId s⟩

/-
Claim C5: update and content maps that carry an identity field.
-/

/-- C5 counterexample: the guard on the identity field is a JS truthiness
test, so a content map carrying the falsy identity value "" is NOT
rejected with InvalidArgument: the update succeeds and the stored file is
replaced (its new content even keeps the empty _id field). -/
theorem update_falsy_id_counterexample :
    (update "d" 5 true "x" [("_id", .prim (.str ""))] oneDocStore).1 ≠
      .error .invalidArgument ∧
    (update "d" 5 true "x" [("_id", .prim (.str ""))] oneDocStore).2 ≠ oneDocStore := by
  decide

/-- C5 amended: for every id and every content map whose identity field is
truthy, update fails with InvalidArgument before performing any I/O (no
lock marker is created and the store is unchanged); a falsy identity value
such as the empty string is not rejected. -/
theorem update_truthy_id_invalid_argument (dir : String) (now : Nat) (wOk : Bool)
    (fileId : String) (data : List (String × JValue)) (s : Store)
    (h : jsTruthy (getKeyD data "_id") = true) :
    update dir now wOk fileId data s = (.error .invalidArgument, s) := by
  unfold update
  simp [h]

/-- Witness for the amended C5 at a concrete truthy identity field. -/
theorem update_truthy_id_invalid_argument_witness :
    jsTruthy (getKeyD [("_id", JValue.prim (.str "y"))] "_id") = true ∧
    update "d" 0 true "x" [("_id", .prim (.str "y"))] oneDocStore =
      (.error .invalidArgument, oneDocStore) :=
  ⟨by decide, update_truthy_id_invalid_argument "d" 0 true "x" _ _ (by decide)⟩

/-
Claim C8: create against a collection capped at zero.
-/

/-- C8 counterexample: with the cap at 0 and no identity field in the
content, the expression `data._id || crypto.randomUUID()` is evaluated
once for the returned id and once more for the returned path, so the path
stem is a SECOND fresh UUID: the returned path is not the collection path
of the returned id. -/
theorem create_max_zero_counterexample :
    (createWithMaxAmountAllowed "d" 0 true [] 0 emptyStore).1 =
      .ok ("uuid-0", "d/uuid-1.json") ∧
    "d/uuid-1.json" ≠ docPath "d" "uuid-0" := by
  decide

/-- C8 amended: with the cap at 0 every create writes nothing (no file, no
lock marker) and returns a synthesized ok pair; when the content carries a
truthy identity field both the id and the path stem are that value (so the
path is the collection path of the id), and otherwise the id and the path
stem are two independently generated UUIDs, which differ in general. -/
theorem create_max_zero_synthesized (dir : String) (now : Nat) (wOk : Bool)
    (data : List (String × JValue)) (s : Store) :
    (createWithMaxAmountAllowed dir now wOk data 0 s).2.docs = s.docs ∧
    (createWithMaxAmountAllowed dir now wOk data 0 s).2.locks = s.locks ∧
    (jsTruthy (getKeyD data "_id") = true →
      (createWithMaxAmountAllowed dir now wOk data 0 s).1 =
        .ok (jsToString (getKeyD data "_id"),
             docPath dir (jsToString (getKeyD data "_id")))) ∧
    (jsTruthy (getKeyD data "_id") = false →
      (createWithMaxAmountAllowed dir now wOk data 0 s).1 =
        .ok (uuidGen s.ctr, docPath dir (uuidGen (s.ctr + 1)))) := by
  unfold createWithMaxAmountAllowed
  by_cases h : jsTruthy (getKeyD data "_id") <;> simp [h]

/-- Witness for the amended C8 at a concrete truthy identity field. -/
theorem create_max_zero_synthesized_witness :
    jsTruthy (getKeyD [("_id", JValue.prim (.str "k"))] "_id") = true ∧
    (createWithMaxAmountAllowed "d" 0 true [("_id", .prim (.str "k"))] 0 emptyStore).1 =
      .ok (jsToString (getKeyD [("_id", JValue.prim (.str "k"))] "_id"),
           docPath "d" (jsToString (getKeyD [("_id", JValue.prim (.str "k"))] "_id"))) :=
  ⟨by decide,
   (create_max_zero_synthesized "d" 0 true [("_id", .prim (.str "k"))] emptyStore).2.2.1
     (by decide)⟩

/-
Claim C9: the offset and limit slicing of filter.
-/

/-- C9 counterexample: the limit guard is a JS truthiness test, so limit 0
is ignored rather than truncating to the empty list: on a one-document
store, filter with limit 0 returns the document instead of the empty
result the claim predicts. -/
theorem filter_limit_zero_counterexample :
    filter noRegex oneEmptyDocStore ⟨none, none, some 0, some 0⟩ ≠
      ((filter noRegex oneEmptyDocStore ⟨none, none, none, none⟩).drop 0).take 0 := by
  decide

/-- C9 amended: for every supplied offset o and limit l with l at least 1,
the filter result is the filtered-and-sorted list with its first o
elements dropped and then truncated to at most l elements (offset 0 drops
nothing); a supplied limit of 0 is ignored, returning everything after the
offset, because its truthiness guard skips the slice. -/
theorem filter_offset_limit_slice (rt : String → JValue → Bool) (s : Store)
    (w : Option (List (String × Cond))) (so : Option (String × SortOrder))
    (o l : Nat) (hl : 1 ≤ l) :
    filter rt s ⟨w, so, some l, some o⟩ =
      ((filter rt s ⟨w, so, none, none⟩).drop o).take l := by
  unfold filter
  have hl0 : l ≠ 0 := Nat.one_le_iff_ne_zero.mp hl
  by_cases ho : o = 0 <;> simp [ho, hl0]

/-- Witness for the amended C9 at concrete offset and limit values. -/
theorem filter_offset_limit_slice_witness :
    1 ≤ 1 ∧
    filter noRegex oneEmptyDocStore ⟨none, none, some 1, some 0⟩ =
      ((filter noRegex oneEmptyDocStore ⟨none, none, none, none⟩).drop 0).take 1 :=
  ⟨by decide, filter_offset_limit_slice noRegex oneEmptyDocStore none none 0 1 (by decide)⟩

/-
Claim C2: which read operations override a content-carried identity field
with the filename stem.
-/

/-- C2 counterexample: for a stored document whose on-disk content carries
the identity field "b" under the filename stem "a", the filter operation
returns the content value "b" as the identity field — the stem does not
override it there, because filter spreads the parsed content AFTER the
stem-derived identity. -/
theorem filter_content_id_counterexample :
    (filter noRegex contentIdStore ⟨none, none, none, none⟩).map
      (fun o => getKeyD o.fields "_id") = [.prim (.str "b")] ∧
    JValue.prim (.str "b") ≠ JValue.prim (.str "a") := by
  decide

/-- C2 amended: read and all return every document with its identity
field equal to the filename stem, overriding any identity value stored in
the content; filter however spreads the content over the stem-derived
identity, so there a content-carried identity field survives and the stem
is only used when the content has none. -/
theorem read_all_filter_id_fields (rt : String → JValue → Bool) (s : Store) :
    (∀ fileId doc, read fileId s = .ok doc →
      getKeyD doc.fields "_id" = .prim (.str fileId)) ∧
    ((all s).map (fun o => getKeyD o.fields "_id") =
      s.docs.map (fun d => JValue.prim (.str d.name))) ∧
    ((∀ d ∈ s.docs, (d.content.map Prod.fst).Nodup) →
      (filter rt s ⟨none, none, none, none⟩).map (fun o => getKeyD o.fields "_id") =
        s.docs.map (fun d =>
          if hasKey d.content "_id" then getKeyD d.content "_id"
          else .prim (.str d.name))) := by
  refine ⟨?_, ?_, ?_⟩
  · intro fileId doc hread
    unfold read at hread
    cases hfind : s.docs.find? (fun d => d.name == fileId) with
    | none => rw [hfind] at hread; exact absurd hread (by simp)
    | some d =>
      rw [hfind] at hread
      have hdoc : doc = ⟨setKey d.content "_id" (.prim (.str fileId)), d.birthtime, d.mtime⟩ := by
        simpa using hread.symm
      rw [hdoc]
      exact getKeyD_setKey_self d.content "_id" _
  · unfold all
    rw [List.map_map]
    exact List.map_congr_left (fun d _ => getKeyD_setKey_self d.content "_id" _)
  · intro hnd
    have hq : filter rt s ⟨none, none, none, none⟩ = s.docs.map filterDocOut := rfl
    rw [hq, List.map_map]
    refine List.map_congr_left (fun d hd => ?_)
    have := getKeyD_applyEntries d.content [("_id", .prim (.str d.name))] "_id" (hnd d hd)
    simp only [Function.comp, filterDocOut]
    rw [this]
    by_cases hk : hasKey d.content "_id" <;> simp [hk, getKeyD]

/-- Witness for the amended C2 at a concrete store whose single document
content carries an identity field differing from the stem. -/
theorem read_all_filter_id_fields_witness :
    (read "a" contentIdStore =
      .ok ⟨[("_id", .prim (.str "a")), ("x", .prim (.num 1))], 0, 0⟩) ∧
    getKeyD (⟨[("_id", JValue.prim (.str "a")), ("x", JValue.prim (.num 1))], 0, 0⟩ :
      OutDoc).fields "_id" = .prim (.str "a") ∧
    (∀ d ∈ contentIdStore.docs, (d.content.map Prod.fst).Nodup) ∧
    (filter noRegex contentIdStore ⟨none, none, none, none⟩).map
        (fun o => getKeyD o.fields "_id") =
      contentIdStore.docs.map (fun d =>
        if hasKey d.content "_id" then getKeyD d.content "_id"
        else .prim (.str d.name)) :=
  ⟨by decide,
   (read_all_filter_id_fields noRegex contentIdStore).1 "a" _ (by decide),
   by decide,
   (read_all_filter_id_fields noRegex contentIdStore).2.2 (by decide)⟩

/-
Claim C7: round trip of create followed by read.
-/

/-- Finding skips a prefix on which the predicate is everywhere false. -/
theorem find?_append_of_none {α : Type} (p : α → Bool) (l1 l2 : List α)
    (h : ∀ a ∈ l1, p a = false) :
    (l1 ++ l2).find? p = l2.find? p := by
  induction l1 with
  | nil => rfl
  | cons a l ih =>
    rw [List.cons_append, List.find?_cons, h a (by simp)]
    exact ih (fun b hb => h b (by simp [hb]))

/-- C7: for every field map without an identity key, create succeeds with
a fresh generated id (given that id is unclaimed), appending exactly that
field map as the new file content, and reading the returned id back yields
exactly the supplied fields plus the assigned identity field and the fresh
creation and modification timestamps — nothing else. -/
theorem create_read_round_trip (dir : String) (now : Nat)
    (data : List (String × JValue)) (s : Store)
    (hid : hasKey data "_id" = false)
    (hdoc : hasDoc s (uuidGen s.ctr) = false)
    (hlock : hasLock s (uuidGen s.ctr) = false) :
    create dir now true data s =
      (.ok (uuidGen s.ctr, docPath dir (uuidGen s.ctr)),
       ⟨s.docs ++ [⟨uuidGen s.ctr, data, now, now⟩], s.locks, s.ctr + 1⟩) ∧
    read (uuidGen s.ctr)
        ⟨s.docs ++ [⟨uuidGen s.ctr, data, now, now⟩], s.locks, s.ctr + 1⟩ =
      .ok ⟨data ++ [("_id", .prim (.str (uuidGen s.ctr)))], now, now⟩ := by
  have hundef : getKeyD data "_id" = JValue.undef := getKeyD_eq_undef data "_id" hid
  have htr : jsTruthy (getKeyD data "_id") = false := by rw [hundef]; rfl
  have hlock2 : s.locks.contains (uuidGen s.ctr) = false := hlock
  have hdoc2 : s.docs.any (fun d => d.name == uuidGen s.ctr) = false := hdoc
  have hdocs : ∀ d ∈ s.docs, (d.name == uuidGen s.ctr) = false := by
    intro d hd
    simpa using List.any_eq_false.mp hdoc2 d hd
  have hnotmem : uuidGen s.ctr ∉ s.locks := by simpa using hlock2
  constructor
  · simp only [create]
    rw [htr]
    simp [hasLock, hasDoc, hlock2, hdoc2, hnotmem, releaseLock, acquireLock]
  · unfold read
    rw [find?_append_of_none _ _ _ hdocs]
    simp [List.find?_cons, setKey_eq_append data "_id" _ hid]

/-- Witness for C7 at a concrete one-field map and a fresh store. -/
theorem create_read_round_trip_witness :
    hasKey [("x", JValue.prim (.num 1))] "_id" = false ∧
    (create "d" 7 true [("x", JValue.prim (.num 1))] emptyStore =
      (.ok (uuidGen 0, docPath "d" (uuidGen 0)),
       ⟨[⟨uuidGen 0, [("x", JValue.prim (.num 1))], 7, 7⟩], [], 1⟩) ∧
     read (uuidGen 0) ⟨[⟨uuidGen 0, [("x", JValue.prim (.num 1))], 7, 7⟩], [], 1⟩ =
       .ok ⟨[("x", JValue.prim (.num 1)), ("_id", .prim (.str (uuidGen 0)))], 7, 7⟩) :=
  ⟨by decide,
   create_read_round_trip "d" 7 [("x", JValue.prim (.num 1))] emptyStore
     (by decide) (by decide) (by decide)⟩

/-
Claim C6: N concurrent updates against one existing id.
-/

/-- Setting an index reads back at that index. -/
theorem get?_set_self {α : Type} (l : List α) (i : Nat) (a : α) (h : i < l.length) :
    (l.set i a).get? i = some a := by
  induction l generalizing i with
  | nil => simp at h
  | cons b t ih =>
    cases i with
    | zero => rfl
    | succ n => exact ih n (Nat.lt_of_succ_lt_succ h)

/-- Setting an index leaves other indices unchanged. -/
theorem get?_set_other {α : Type} (l : List α) (i j : Nat) (a : α) (h : i ≠ j) :
    (l.set i a).get? j = l.get? j := by
  induction l generalizing i j with
  | nil => rfl
  | cons b t ih =>
    cases i with
    | zero =>
      cases j with
      | zero => exact absurd rfl h
      | succ m => rfl
    | succ n =>
      cases j with
      | zero => rfl
      | succ m => exact ih n m (fun hh => h (by rw [hh]))

/-- Reading inside a replicated list. -/
theorem get?_replicate {α : Type} (n i : Nat) (a : α) (h : i < n) :
    (List.replicate n a).get? i = some a := by
  induction n generalizing i with
  | zero => simp at h
  | succ m ih =>
    cases i with
    | zero => rfl
    | succ k => exact ih k (Nat.lt_of_succ_lt_succ h)

/-- Step of a pending call while the marker is held: fail fast. -/
theorem raceStep_pending_locked (st : RaceState) (i : Nat)
    (h : st.calls.get? i = some .pending) (hl : st.locked = true) :
    raceStep st i = { st with calls := st.calls.set i .failedLocked } := by
  unfold raceStep
  rw [h, hl]
  simp

/-- Step of a pending call while the marker is free: acquire it. -/
theorem raceStep_pending_unlocked (st : RaceState) (i : Nat)
    (h : st.calls.get? i = some .pending) (hl : st.locked = false) :
    raceStep st i = ⟨true, st.calls.set i .acquired⟩ := by
  unfold raceStep
  rw [h, hl]
  simp

/-- Step of the call holding the marker: write, release, succeed. -/
theorem raceStep_acquired (st : RaceState) (i : Nat)
    (h : st.calls.get? i = some .acquired) :
    raceStep st i = ⟨false, st.calls.set i .succeeded⟩ := by
  unfold raceStep
  rw [h]

/-- While the marker is held, every scheduled acquisition attempt of a
distinct pending call fails fast with AlreadyLocked and the marker stays
held. -/
theorem raceRun_pending_losers (sched : List Nat) (st : RaceState)
    (hl : st.locked = true)
    (hp : ∀ j ∈ sched, st.calls.get? j = some .pending)
    (hnd : sched.Nodup) :
    (raceRun st sched).locked = true ∧
    (raceRun st sched).calls.length = st.calls.length ∧
    (∀ j, (raceRun st sched).calls.get? j =
      if j ∈ sched then some .failedLocked else st.calls.get? j) := by
  induction sched generalizing st with
  | nil => exact ⟨hl, rfl, fun j => by simp [raceRun]⟩
  | cons j0 tl ih =>
    have hj0 : st.calls.get? j0 = some .pending := hp j0 (by simp)
    have hstep : raceStep st j0 = { st with calls := st.calls.set j0 .failedLocked } :=
      raceStep_pending_locked st j0 hj0 hl
    have hrun : raceRun st (j0 :: tl) =
        raceRun { st with calls := st.calls.set j0 .failedLocked } tl := by
      show raceRun (raceStep st j0) tl = _
      rw [hstep]
    obtain ⟨hnd0, hndtl⟩ := List.nodup_cons.mp hnd
    have hp2 : ∀ j ∈ tl,
        ({ st with calls := st.calls.set j0 .failedLocked } : RaceState).calls.get? j =
          some .pending := by
      intro j hj
      have hne : j0 ≠ j := fun hh => hnd0 (hh ▸ hj)
      show (st.calls.set j0 .failedLocked).get? j = some CallPhase.pending
      rw [get?_set_other _ _ _ _ hne]
      exact hp j (by simp [hj])
    obtain ⟨l1, l2, l3⟩ :=
      ih { st with calls := st.calls.set j0 .failedLocked } hl hp2 hndtl
    rw [hrun]
    refine ⟨l1, by rw [l2]; simp, fun j => ?_⟩
    rw [l3 j]
    by_cases hjtl : j ∈ tl
    · rw [if_pos hjtl, if_pos (List.mem_cons_of_mem j0 hjtl)]
    · by_cases hje : j = j0
      · subst hje
        have hlen : j < st.calls.length := by
          rcases List.get?_eq_some.mp hj0 with ⟨hh, _⟩
          exact hh
        rw [if_neg hjtl, if_pos (List.mem_cons_self j tl)]
        exact get?_set_self _ _ _ hlen
      · have hnotin : j ∉ j0 :: tl := by simp [hje, hjtl]
        rw [if_neg hjtl, if_neg hnotin]
        exact get?_set_other _ _ _ _ (fun hh => hje hh.symm)

/-- C6: when N concurrent updates (N at least 2) against the same
existing id all reach their marker-creation step before any of them
finishes — a schedule whose first N steps are the acquisition attempts,
in any order starting with call i, followed by the completion of the
winner — then exactly one call (the first scheduled) succeeds, the other
N - 1 fail with AlreadyLocked, and after all calls settle the marker for
the id is gone. -/
theorem concurrent_updates_single_winner (N i : Nat) (rest : List Nat)
    (hN : 2 ≤ N)
    (hperm : List.isPerm (i :: rest) (List.range N) = true) :
    (raceRun (raceInit N) ((i :: rest) ++ [i])).calls.get? i = some .succeeded ∧
    (∀ j, j < N → j ≠ i →
      (raceRun (raceInit N) ((i :: rest) ++ [i])).calls.get? j = some .failedLocked) ∧
    (raceRun (raceInit N) ((i :: rest) ++ [i])).locked = false := by
  have hperm2 : (i :: rest).Perm (List.range N) := List.isPerm_iff.mp hperm
  have hmem : ∀ j, j ∈ i :: rest ↔ j < N := fun j => by
    rw [hperm2.mem_iff, List.mem_range]
  have hnd : (i :: rest).Nodup := (hperm2.nodup_iff).mpr (List.nodup_range N)
  obtain ⟨hnd0, hndrest⟩ := List.nodup_cons.mp hnd
  have hiN : i < N := (hmem i).mp (by simp)
  have hg0 : (raceInit N).calls.get? i = some CallPhase.pending :=
    get?_replicate N i _ hiN
  have hst1 : raceStep (raceInit N) i =
      ⟨true, (List.replicate N CallPhase.pending).set i .acquired⟩ :=
    raceStep_pending_unlocked (raceInit N) i hg0 rfl
  have hp2 : ∀ j ∈ rest, (raceStep (raceInit N) i).calls.get? j = some .pending := by
    intro j hj
    rw [hst1]
    have hne : i ≠ j := fun hh => hnd0 (hh ▸ hj)
    show ((List.replicate N CallPhase.pending).set i .acquired).get? j =
      some CallPhase.pending
    rw [get?_set_other _ _ _ _ hne]
    exact get?_replicate N j _ ((hmem j).mp (by simp [hj]))
  have hlocked1 : (raceStep (raceInit N) i).locked = true := by rw [hst1]
  obtain ⟨l1, l2, l3⟩ := raceRun_pending_losers rest _ hlocked1 hp2 hndrest
  have hlen2 : (raceRun (raceStep (raceInit N) i) rest).calls.length = N := by
    rw [l2, hst1]
    simp
  have hgeti : (raceRun (raceStep (raceInit N) i) rest).calls.get? i =
      some CallPhase.acquired := by
    rw [l3 i]
    have hin : i ∉ rest := hnd0
    rw [if_neg hin, hst1]
    show ((List.replicate N CallPhase.pending).set i .acquired).get? i =
      some CallPhase.acquired
    exact get?_set_self _ _ _ (by simp [hiN])
  have hfinal : raceStep (raceRun (raceStep (raceInit N) i) rest) i =
      ⟨false, (raceRun (raceStep (raceInit N) i) rest).calls.set i .succeeded⟩ :=
    raceStep_acquired _ i hgeti
  have hsplit : raceRun (raceInit N) ((i :: rest) ++ [i]) =
      raceStep (raceRun (raceStep (raceInit N) i) rest) i := by
    show List.foldl raceStep (raceInit N) ((i :: rest) ++ [i]) =
      raceStep (List.foldl raceStep (raceStep (raceInit N) i) rest) i
    rw [List.foldl_append]
    rfl
  rw [hsplit, hfinal]
  refine ⟨?_, ?_, rfl⟩
  · exact get?_set_self _ _ _ (by rw [hlen2]; exact hiN)
  · intro j hjN hji
    have hjrest : j ∈ rest := by
      have hjc : j ∈ i :: rest := (hmem j).mpr hjN
      rcases List.mem_cons.mp hjc with hh | hh
      · exact absurd hh hji
      · exact hh
    show ((raceRun (raceStep (raceInit N) i) rest).calls.set i .succeeded).get? j =
      some CallPhase.failedLocked
    rw [get?_set_other _ _ _ _ (fun hh => hji hh.symm)]
    rw [l3 j, if_pos hjrest]

/-- Witness for C6 at two concurrent updates. -/
theorem concurrent_updates_single_winner_witness :
    2 ≤ 2 ∧ List.isPerm [0, 1] (List.range 2) = true ∧
    (raceRun (raceInit 2) ([0, 1] ++ [0])).calls.get? 0 = some .succeeded :=
  ⟨by decide, by decide,
   (concurrent_updates_single_winner 2 0 [1] (by decide) (by decide)).1⟩

/-
Claim C3: the eviction policy bounds a capped collection along any
sequence of create calls from a fresh collection.
-/

/-- An absent document means its stem is not among the filenames. -/
theorem not_mem_names_of_hasDoc_false (s : Store) (id : String)
    (h : hasDoc s id = false) :
    id ∉ s.docs.map DocFile.name := by
  intro hmem
  rcases List.mem_map.mp hmem with ⟨d, hd, hdn⟩
  have hfalse := List.any_eq_false.mp h d hd
  simp [hdn] at hfalse

/-- A present document means its stem is among the filenames. -/
theorem hasDoc_true_of_mem_names (s : Store) (id : String)
    (h : id ∈ s.docs.map DocFile.name) :
    hasDoc s id = true := by
  rcases List.mem_map.mp h with ⟨d, hd, hdn⟩
  unfold hasDoc
  rw [List.any_eq_true]
  exact ⟨d, hd, by simp [hdn]⟩

/-- The file content written by create resolves to its own filename stem
under the content-derived id fallback used by getStats and eviction. -/
theorem contentIdStr_new (data : List (String × JValue)) (now : Nat) (id : String)
    (h : jsTruthy (getKeyD data "_id") = true → id = jsToString (getKeyD data "_id")) :
    contentIdStr ⟨id, data, now, now⟩ = id := by
  unfold contentIdStr
  by_cases h0 : jsTruthy (getKeyD data "_id")
  · rw [if_pos h0]
    exact (h h0).symm
  · rw [if_neg h0]

/-- Case analysis of the create effect on the document list, under a
lock-free store: either nothing is written, or exactly the supplied
content is appended under a stem that was free, the stem being the
content _id (string-coerced) when truthy. -/
theorem create_docs_cases (dir : String) (now : Nat) (wOk : Bool)
    (data : List (String × JValue)) (s : Store) (hlk : s.locks = []) :
    ((create dir now wOk data s).2.docs = s.docs) ∨
    (∃ id, hasDoc s id = false ∧
      (jsTruthy (getKeyD data "_id") = true → id = jsToString (getKeyD data "_id")) ∧
      (create dir now wOk data s).2.docs = s.docs ++ [⟨id, data, now, now⟩]) := by
  have hlock : ∀ id : String, hasLock s id = false := by
    intro id
    unfold hasLock
    rw [hlk]
    rfl
  unfold create
  by_cases h0 : jsTruthy (getKeyD data "_id")
  · simp only [h0, ite_true]
    rw [hlock (jsToString (getKeyD data "_id"))]
    by_cases hD : hasDoc s (jsToString (getKeyD data "_id"))
    · have hD2 : hasDoc (acquireLock (jsToString (getKeyD data "_id")) s)
          (jsToString (getKeyD data "_id")) = true := hD
      simp only [Bool.false_eq_true, if_false, hD2, ite_true]
      exact Or.inl rfl
    · have hD2 : hasDoc (acquireLock (jsToString (getKeyD data "_id")) s)
          (jsToString (getKeyD data "_id")) = false := by simpa using hD
      simp only [Bool.false_eq_true, if_false, hD2]
      cases wOk with
      | false => exact Or.inl rfl
      | true =>
        refine Or.inr ⟨jsToString (getKeyD data "_id"), by simpa using hD, fun _ => rfl, ?_⟩
        simp [releaseLock, acquireLock]
  · simp only [h0, ite_false, Bool.false_eq_true]
    have hlock2 : hasLock { docs := s.docs, locks := s.locks, ctr := s.ctr + 1 }
        (uuidGen s.ctr) = false := hlock (uuidGen s.ctr)
    rw [hlock2]
    by_cases hD : hasDoc s (uuidGen s.ctr)
    · have hD2 : hasDoc (acquireLock (uuidGen s.ctr)
          { docs := s.docs, locks := s.locks, ctr := s.ctr + 1 }) (uuidGen s.ctr) = true := hD
      simp only [Bool.false_eq_true, if_false, hD2, ite_true]
      exact Or.inl rfl
    · have hD2 : hasDoc (acquireLock (uuidGen s.ctr)
          { docs := s.docs, locks := s.locks, ctr := s.ctr + 1 }) (uuidGen s.ctr) = false := by
        simpa using hD
      simp only [Bool.false_eq_true, if_false, hD2]
      cases wOk with
      | false => exact Or.inl rfl
      | true =>
        refine Or.inr ⟨uuidGen s.ctr, by simpa using hD, fun hh => hh.elim, ?_⟩
        simp [releaseLock, acquireLock]

/-- Effect of create on the collection invariant. -/
theorem create_preserves (dir : String) (now : Nat) (wOk : Bool)
    (data : List (String × JValue)) (s : Store)
    (hlk : s.locks = []) (hnd : (s.docs.map DocFile.name).Nodup)
    (hcid : ∀ d ∈ s.docs, contentIdStr d = d.name) :
    (create dir now wOk data s).2.locks = [] ∧
    ((create dir now wOk data s).2.docs.map DocFile.name).Nodup ∧
    (∀ d ∈ (create dir now wOk data s).2.docs, contentIdStr d = d.name) ∧
    (create dir now wOk data s).2.docs.length ≤ s.docs.length + 1 := by
  refine ⟨by rw [create_locks]; exact hlk, ?_⟩
  rcases create_docs_cases dir now wOk data s hlk with heq | ⟨id, hfree, hid, heq⟩
  · rw [heq]
    exact ⟨hnd, hcid, by omega⟩
  · rw [heq]
    have hnotin := not_mem_names_of_hasDoc_false s id hfree
    refine ⟨?_, ?_, by simp⟩
    · simp only [List.map_append, List.map_cons, List.map_nil]
      rw [List.nodup_append]
      exact ⟨hnd, List.nodup_singleton id, by simpa using hnotin⟩
    · intro d hd
      rcases List.mem_append.mp hd with hmem | hmem
      · exact hcid d hmem
      · rw [List.mem_singleton.mp hmem]
        exact contentIdStr_new data now id hid

/-- Deleting an existing id in a lock-free store removes exactly the
documents bearing that stem. -/
theorem delete_present (fileId : String) (s : Store) (hlk : s.locks = [])
    (hd : hasDoc s fileId = true) :
    (delete fileId s).2 = ⟨s.docs.filter (fun d => d.name != fileId), [], s.ctr⟩ := by
  unfold delete
  have h1 : hasLock s fileId = false := by unfold hasLock; rw [hlk]; rfl
  rw [h1]
  have h2 : hasDoc (acquireLock fileId s) fileId = true := hd
  simp only [Bool.false_eq_true, if_false, h2, Bool.not_true, ite_false]
  have h3 : (releaseLock fileId (removeDoc fileId (acquireLock fileId s))).locks = [] := by
    simp [releaseLock, removeDoc, acquireLock, hlk]
  simp [releaseLock, removeDoc, acquireLock, hlk]

/-- Deleting a missing id in a lock-free store changes nothing (the
NotFound failure is what the eviction loop swallows). -/
theorem delete_absent (fileId : String) (s : Store) (hlk : s.locks = [])
    (hd : hasDoc s fileId = false) :
    (delete fileId s).2 = ⟨s.docs, [], s.ctr⟩ := by
  unfold delete
  have h1 : hasLock s fileId = false := by unfold hasLock; rw [hlk]; rfl
  rw [h1]
  have h2 : hasDoc (acquireLock fileId s) fileId = false := hd
  have h3 : hasDoc { docs := s.docs, locks := [fileId], ctr := s.ctr } fileId = false := hd
  simp [h2, h3, releaseLock, acquireLock, hlk]

/-- Filenames of the documents surviving one deletion. -/
theorem names_filter_map (docs : List DocFile) (v : String) :
    (docs.filter (fun d => d.name != v)).map DocFile.name =
      (docs.map DocFile.name).filter (fun n => n != v) := by
  induction docs with
  | nil => rfl
  | cons d t ih =>
    by_cases h : (d.name != v) = true
    · simp only [List.filter_cons, h, ite_true, List.map_cons, ih]
    · have h2 : (d.name != v) = false := by simpa using h
      simp only [List.filter_cons, h2, Bool.false_eq_true, if_false, List.map_cons, ih]

/-- Deleting a present stem from a duplicate-free collection removes
exactly one document. -/
theorem length_filter_ne (docs : List DocFile) (v : String)
    (hnd : (docs.map DocFile.name).Nodup) (hv : v ∈ docs.map DocFile.name) :
    (docs.filter (fun d => d.name != v)).length + 1 = docs.length := by
  induction docs with
  | nil => simp at hv
  | cons d t ih =>
    simp only [List.map_cons, List.nodup_cons] at hnd
    rcases List.mem_cons.mp hv with hh | hh
    · have hdv : (d.name != v) = false := by simp [hh]
      have hrest : t.filter (fun x => x.name != v) = t := by
        rw [List.filter_eq_self]
        intro x hx
        have : x.name ≠ v := by
          intro hcontra
          exact hnd.1 (hh ▸ hcontra ▸ List.mem_map.mpr ⟨x, hx, rfl⟩)
        simpa using this
      simp [List.filter_cons, hdv, hrest]
    · have hne : d.name ≠ v := by
        intro hcontra
        exact hnd.1 (hcontra ▸ hh)
      have hdv : (d.name != v) = true := by simpa using hne
      have hih := ih hnd.2 hh
      simp only [List.filter_cons, hdv, ite_true, List.length_cons]
      omega

/-- The eviction loop: deleting a duplicate-free list of present stems
from a lock-free, duplicate-free collection removes exactly those
documents, leaving the markers clear, the survivors a sub-collection, and
the count reduced by the number of victims. -/
theorem evict_loop (victims : List String) (s : Store)
    (hlk : s.locks = [])
    (hnd : (s.docs.map DocFile.name).Nodup)
    (hvnd : victims.Nodup)
    (hvm : ∀ v ∈ victims, v ∈ s.docs.map DocFile.name) :
    (victims.foldl (fun st vid => (delete vid st).2) s).locks = [] ∧
    (victims.foldl (fun st vid => (delete vid st).2) s).docs.length + victims.length =
      s.docs.length ∧
    ((victims.foldl (fun st vid => (delete vid st).2) s).docs.map DocFile.name).Nodup ∧
    (∀ d ∈ (victims.foldl (fun st vid => (delete vid st).2) s).docs, d ∈ s.docs) := by
  induction victims generalizing s with
  | nil => exact ⟨hlk, by simp, hnd, fun d hd => hd⟩
  | cons v tl ih =>
    obtain ⟨hnd0, hndtl⟩ := List.nodup_cons.mp hvnd
    have hvdoc : hasDoc s v = true := hasDoc_true_of_mem_names s v (hvm v (by simp))
    have hstep := delete_present v s hlk hvdoc
    have hrun : (v :: tl).foldl (fun st vid => (delete vid st).2) s =
        tl.foldl (fun st vid => (delete vid st).2)
          ⟨s.docs.filter (fun d => d.name != v), [], s.ctr⟩ := by
      show tl.foldl (fun st vid => (delete vid st).2) (delete v s).2 = _
      rw [hstep]
    have hnames1 : ((s.docs.filter (fun d => d.name != v)).map DocFile.name) =
        (s.docs.map DocFile.name).filter (fun n => n != v) := names_filter_map s.docs v
    have hnd1 : (((⟨s.docs.filter (fun d => d.name != v), [], s.ctr⟩ : Store)).docs.map
        DocFile.name).Nodup := by
      rw [hnames1]
      exact hnd.filter _
    have hvm1 : ∀ v2 ∈ tl,
        v2 ∈ ((⟨s.docs.filter (fun d => d.name != v), [], s.ctr⟩ : Store)).docs.map
          DocFile.name := by
      intro v2 hv2
      rw [hnames1]
      refine List.mem_filter.mpr ⟨hvm v2 (by simp [hv2]), ?_⟩
      have : v2 ≠ v := fun hh => hnd0 (hh ▸ hv2)
      simpa using this
    obtain ⟨i1, i2, i3, i4⟩ := ih ⟨s.docs.filter (fun d => d.name != v), [], s.ctr⟩
      rfl hnd1 hndtl hvm1
    have hlen : (s.docs.filter (fun d => d.name != v)).length + 1 = s.docs.length :=
      length_filter_ne s.docs v hnd (hvm v (by simp))
    have i2b : (tl.foldl (fun st vid => (delete vid st).2)
        (⟨s.docs.filter (fun d => d.name != v), [], s.ctr⟩ : Store)).docs.length +
          tl.length = (s.docs.filter (fun d => d.name != v)).length := i2
    rw [hrun]
    refine ⟨i1, by simp only [List.length_cons]; omega, i3, ?_⟩
    intro d hd
    exact List.mem_filter.mp (i4 d hd) |>.1

/-- Shape of a capped create when the count has reached the cap: evict the
content-derived ids of the oldest count - max + 1 files, then run the
normal create. -/
theorem createWithMax_eq_evict (dir : String) (now : Nat) (wOk : Bool)
    (data : List (String × JValue)) (M : Nat) (s : Store)
    (hM : M ≠ 0) (hcnt : M ≤ s.docs.length) :
    createWithMaxAmountAllowed dir now wOk data M s =
      create dir now wOk data
        ((((List.insertionSort (fun a b => a.birthtime ≤ b.birthtime) s.docs).take
            (s.docs.length - M + 1)).map contentIdStr).foldl
          (fun st vid => (delete vid st).2) s) := by
  unfold createWithMaxAmountAllowed
  simp [hM, hcnt]

/-- Shape of a capped create while the count is below the cap: just the
normal create. -/
theorem createWithMax_eq_plain (dir : String) (now : Nat) (wOk : Bool)
    (data : List (String × JValue)) (M : Nat) (s : Store)
    (hM : M ≠ 0) (hcnt : ¬ M ≤ s.docs.length) :
    createWithMaxAmountAllowed dir now wOk data M s = create dir now wOk data s := by
  unfold createWithMaxAmountAllowed
  simp [hM, hcnt]

/-- One capped create from any well-formed collection state leaves a
well-formed state with at most max documents. -/
theorem createWithMax_step (dir : String) (now : Nat) (wOk : Bool)
    (data : List (String × JValue)) (M : Nat) (s : Store) (hM : 1 ≤ M)
    (hlk : s.locks = []) (hnd : (s.docs.map DocFile.name).Nodup)
    (hcid : ∀ d ∈ s.docs, contentIdStr d = d.name) :
    (createWithMaxAmountAllowed dir now wOk data M s).2.locks = [] ∧
    ((createWithMaxAmountAllowed dir now wOk data M s).2.docs.map DocFile.name).Nodup ∧
    (∀ d ∈ (createWithMaxAmountAllowed dir now wOk data M s).2.docs,
      contentIdStr d = d.name) ∧
    (createWithMaxAmountAllowed dir now wOk data M s).2.docs.length ≤ M := by
  have hM0 : M ≠ 0 := Nat.one_le_iff_ne_zero.mp hM
  by_cases hcnt : M ≤ s.docs.length
  · rw [createWithMax_eq_evict dir now wOk data M s hM0 hcnt]
    have hperm : (List.insertionSort (fun a b => a.birthtime ≤ b.birthtime) s.docs).Perm
        s.docs := List.perm_insertionSort _ _
    have hsortmem : ∀ d ∈ (List.insertionSort (fun a b => a.birthtime ≤ b.birthtime)
        s.docs).take (s.docs.length - M + 1), d ∈ s.docs := by
      intro d hd
      exact hperm.mem_iff.mp (List.take_subset _ _ hd)
    have hvic_eq : ((List.insertionSort (fun a b => a.birthtime ≤ b.birthtime) s.docs).take
          (s.docs.length - M + 1)).map contentIdStr =
        ((List.insertionSort (fun a b => a.birthtime ≤ b.birthtime) s.docs).take
          (s.docs.length - M + 1)).map DocFile.name :=
      List.map_congr_left (fun d hd => hcid d (hsortmem d hd))
    rw [hvic_eq]
    have hnames_sorted : ((List.insertionSort (fun a b => a.birthtime ≤ b.birthtime)
        s.docs).map DocFile.name).Nodup := ((hperm.map _).nodup_iff).mpr hnd
    have hvnd : (((List.insertionSort (fun a b => a.birthtime ≤ b.birthtime) s.docs).take
        (s.docs.length - M + 1)).map DocFile.name).Nodup := by
      rw [List.map_take]
      exact List.Nodup.sublist (List.take_sublist _ _) hnames_sorted
    have hvm : ∀ v ∈ ((List.insertionSort (fun a b => a.birthtime ≤ b.birthtime)
        s.docs).take (s.docs.length - M + 1)).map DocFile.name,
        v ∈ s.docs.map DocFile.name := by
      intro v hv
      rcases List.mem_map.mp hv with ⟨d, hd, rfl⟩
      exact List.mem_map.mpr ⟨d, hsortmem d hd, rfl⟩
    obtain ⟨e1, e2, e3, e4⟩ := evict_loop _ s hlk hnd hvnd hvm
    obtain ⟨c1, c2, c3, c4⟩ := create_preserves dir now wOk data _ e1 e3
      (fun d hd => hcid d (e4 d hd))
    refine ⟨c1, c2, c3, ?_⟩
    have hvlen : (((List.insertionSort (fun a b => a.birthtime ≤ b.birthtime) s.docs).take
        (s.docs.length - M + 1)).map DocFile.name).length = s.docs.length - M + 1 := by
      rw [List.length_map, List.length_take, hperm.length_eq]
      omega
    rw [hvlen] at e2
    omega
  · rw [createWithMax_eq_plain dir now wOk data M s hM0 hcnt]
    obtain ⟨c1, c2, c3, c4⟩ := create_preserves dir now wOk data s hlk hnd hcid
    exact ⟨c1, c2, c3, by omega⟩

/-- The invariant along a whole sequence of capped creates. -/
theorem runCreates_invariant (dir : String) (M : Nat) (hM : 1 ≤ M)
    (calls : List (Nat × Bool × List (String × JValue))) (s : Store)
    (hlk : s.locks = []) (hnd : (s.docs.map DocFile.name).Nodup)
    (hcid : ∀ d ∈ s.docs, contentIdStr d = d.name)
    (hb : s.docs.length ≤ M) :
    (runCreates dir M calls s).docs.length ≤ M := by
  induction calls generalizing s with
  | nil => exact hb
  | cons c tl ih =>
    obtain ⟨i1, i2, i3, i4⟩ := createWithMax_step dir c.1 c.2.1 c.2.2 M s hM hlk hnd hcid
    exact ih (createWithMaxAmountAllowed dir c.1 c.2.1 c.2.2 M s).2 i1 i2 i3 i4

/-- C3: for a cap of at least 1, every create routed through the eviction
policy counts the documents, deletes the content-derived ids of the
count - max + 1 oldest when the count has reached the cap (each through
the normal delete, failures swallowed), and then creates — so starting
from a fresh collection, after any sequence of create calls the surviving
document count never exceeds the cap. -/
theorem createWithMaxAllowed_bound (dir : String) (M : Nat) (hM : 1 ≤ M)
    (calls : List (Nat × Bool × List (String × JValue))) :
    (runCreates dir M calls emptyStore).docs.length ≤ M :=
  runCreates_invariant dir M hM calls emptyStore rfl (by simp [emptyStore])
    (by simp [emptyStore]) (by simp [emptyStore])

/-- Witness for C3 at cap 1 and three concrete creates. -/
theorem createWithMaxAllowed_bound_witness :
    1 ≤ 1 ∧
    (runCreates "d" 1 [(0, true, []), (1, true, []), (2, true, [])]
      emptyStore).docs.length ≤ 1 :=
  ⟨by decide,
   createWithMaxAllowed_bound "d" 1 (by decide) [(0, true, []), (1, true, []), (2, true, [])]⟩

/-
Claim C10: getStats and the eviction step derive ids from the stored
content rather than from the filename.
-/

/-- C10: every document is listed by getStats under the id derived from
its content (_id when truthy, string-coerced, falling back to the
filename stem); and for a capped collection whose single (hence oldest)
document carries a truthy content _id differing from its filename stem,
the eviction preceding a create issues its delete against the
content-derived name, which misses the actual file: the supposed victim
survives and the new document is added beside it, pushing the count past
the cap of 1. -/
theorem stats_eviction_content_id :
    (∀ (s : Store) (d : DocFile), d ∈ s.docs →
      (⟨(if jsTruthy (getKeyD d.content "_id") then jsToString (getKeyD d.content "_id")
          else d.name), d.birthtime, d.mtime⟩ : FileMetadata) ∈ (getStats s).createdAsc) ∧
    (∀ (dir : String) (now : Nat) (data : List (String × JValue)) (d : DocFile) (c : Nat),
      jsTruthy (getKeyD d.content "_id") = true →
      jsToString (getKeyD d.content "_id") ≠ d.name →
      jsTruthy (getKeyD data "_id") = true →
      jsToString (getKeyD data "_id") ≠ d.name →
      (createWithMaxAmountAllowed dir now true data 1 ⟨[d], [], c⟩).2.docs =
        [d, ⟨jsToString (getKeyD data "_id"), data, now, now⟩]) := by
  constructor
  · intro s d hd
    have hmem : (⟨contentIdStr d, d.birthtime, d.mtime⟩ : FileMetadata) ∈
        s.docs.map (fun d => (⟨contentIdStr d, d.birthtime, d.mtime⟩ : FileMetadata)) :=
      List.mem_map.mpr ⟨d, hd, rfl⟩
    have hperm := List.perm_insertionSort
      (fun a b : FileMetadata => a.createdAt ≤ b.createdAt)
      (s.docs.map (fun d => (⟨contentIdStr d, d.birthtime, d.mtime⟩ : FileMetadata)))
    exact hperm.mem_iff.mpr hmem
  · intro dir now data d c h1 h2 h3 h4
    rw [createWithMax_eq_evict dir now true data 1 ⟨[d], [], c⟩ (by decide) (by simp)]
    have hcid : contentIdStr d = jsToString (getKeyD d.content "_id") := by
      unfold contentIdStr
      rw [if_pos h1]
    have hb : hasDoc (⟨[d], [], c⟩ : Store) (jsToString (getKeyD d.content "_id")) =
        false := by
      unfold hasDoc
      simp [Ne.symm h2]
    have hvic : ((List.insertionSort (fun a b : DocFile => a.birthtime ≤ b.birthtime)
        (⟨[d], [], c⟩ : Store).docs).take
          ((⟨[d], [], c⟩ : Store).docs.length - 1 + 1)).map contentIdStr =
        [contentIdStr d] := by
      simp [List.insertionSort, List.orderedInsert]
    rw [hvic]
    have hfold : ([contentIdStr d].foldl (fun st vid => (delete vid st).2)
        (⟨[d], [], c⟩ : Store)) = ⟨[d], [], c⟩ := by
      show (delete (contentIdStr d) ⟨[d], [], c⟩).2 = _
      rw [hcid]
      exact delete_absent _ _ rfl hb
    rw [hfold]
    have hlock : hasLock (⟨[d], [], c⟩ : Store) (jsToString (getKeyD data "_id")) =
        false := rfl
    have hdoc2 : hasDoc (acquireLock (jsToString (getKeyD data "_id")) ⟨[d], [], c⟩)
        (jsToString (getKeyD data "_id")) = false := by
      unfold hasDoc acquireLock
      simp [Ne.symm h4]
    simp only [create, h3, ite_true, hlock, Bool.false_eq_true, if_false, hdoc2,
      Bool.not_true]
    simp [releaseLock, acquireLock]

/-- Witness for C10 at a concrete mismatched document and create. -/
theorem stats_eviction_content_id_witness :
    ((⟨"a", [("_id", JValue.prim (.str "b"))], 0, 0⟩ : DocFile) ∈
      (⟨[⟨"a", [("_id", JValue.prim (.str "b"))], 0, 0⟩], [], 0⟩ : Store).docs) ∧
    jsTruthy (getKeyD [("_id", JValue.prim (.str "b"))] "_id") = true ∧
    (createWithMaxAmountAllowed "d" 5 true [("_id", JValue.prim (.str "t"))] 1
        ⟨[⟨"a", [("_id", JValue.prim (.str "b"))], 0, 0⟩], [], 0⟩).2.docs =
      [⟨"a", [("_id", JValue.prim (.str "b"))], 0, 0⟩,
       ⟨jsToString (getKeyD [("_id", JValue.prim (.str "t"))] "_id"),
        [("_id", JValue.prim (.str "t"))], 5, 5⟩] :=
  ⟨by decide, by decide,
   stats_eviction_content_id.2 "d" 5 [("_id", JValue.prim (.str "t"))]
     ⟨"a", [("_id", JValue.prim (.str "b"))], 0, 0⟩ 0
     (by decide) (by decide) (by decide) (by decide)⟩

end JSONStorage
